import Mathlib

/-!
Verification of the forge-npm-pkg scaffolding core: a shallow embedding of
the package-manifest entry-points generator, the npm and Node.js version
resolvers with their fallback chains, and the CI workflow template builder,
together with theorems checking the documented behaviour of each component.

String processing done by the TypeScript source with `split`, `includes`,
regular expressions and `Array.prototype.sort` is modelled over `List Char`
(`String.data`) with structurally recursive functions; JavaScript `Number`
results are modelled as `Option Int` with `none` playing the role of `NaN`,
and `Date` values as integers under an order-preserving encoding.  Network
fetches are oracles: an `Option` argument whose `none` stands for any failed
fetch (network error, non-OK status, timeout), all of which the source turns
into a thrown-and-caught exception.
-/

namespace Forge

/-! Character-list utilities shared by the embeddings. -/

/-- Splitting of a character list on a single separator character, as done
by `version.split('.')` in the source (which only ever splits on `"."`). -/
def splitOnChar (sep : Char) : List Char → List (List Char)
  | [] => [[]]
  | c :: cs =>
    match splitOnChar sep cs with
    | [] => if c = sep then [[], []] else [[c]]
    | h :: t => if c = sep then [] :: h :: t else (c :: h) :: t

/-- Value of a digit string, most significant digit first. -/
def digitsToNat (s : List Char) : Nat :=
  s.foldl (fun a c => 10 * a + (c.toNat - 48)) 0

/-- JavaScript `Number(part)` on the strings produced by splitting a version
string on `"."`: the empty string coerces to `0`, a digit string to its
value, and anything else occurring there to `NaN` (modelled as `none`). -/
def jsNumber (s : List Char) : Option Int :=
  if s = [] then some 0
  else if s.all (·.isDigit) then some (digitsToNat s) else Option.none

/-- Boolean test: `p` is a leading segment of `l`. -/
def listLeadsB [DecidableEq α] : List α → List α → Bool
  | [], _ => true
  | _ :: _, [] => false
  | a :: p, b :: l => a = b && listLeadsB p l

/-- Boolean test: `t` occurs contiguously somewhere inside `s`. -/
def listWithinB [DecidableEq α] (t : List α) : List α → Bool
  | [] => t = []
  | b :: rest => listLeadsB t (b :: rest) || listWithinB t rest

/-- The string `t` occurs contiguously inside `s` (JavaScript
`s.includes(t)`, "the text contains ..."). -/
@[reducible] def containsStr (s t : String) : Prop := listWithinB t.data s.data = true

/-- The string `s` starts with the string `t`. -/
@[reducible] def beginsWith (s t : String) : Prop := listLeadsB t.data s.data = true

/-- The string `s` ends with the string `t`. -/
@[reducible] def endsWithStr (s t : String) : Prop :=
  listLeadsB t.data.reverse s.data.reverse = true

/-! Insertion sort mirroring `Array.prototype.sort(comparator)`.
JavaScript's sort is stable, and with a consistent comparator every stable
sort produces the same output, so a stable insertion sort is a faithful
model of the two `sort` calls in the source (both sort lists whose elements
the comparator orders consistently). -/

/-- Insert `a` in front of the first element `b` with `le a b`. -/
def orderedInsert (le : α → α → Bool) (a : α) : List α → List α
  | [] => [a]
  | b :: l => if le a b then a :: b :: l else b :: orderedInsert le a l

/-- Stable insertion sort by a Boolean "less or equal" test. -/
def insertionSort (le : α → α → Bool) : List α → List α
  | [] => []
  | a :: l => orderedInsert le a (insertionSort le l)

/-! Project configuration (the `ProjectConfig` interface of
`generators/types.ts` and `actionsFetcher.ts`). -/

inductive Language where
  | typescript
  | javascript
deriving DecidableEq

inductive ModuleType where
  | esm
  | commonjs
  | dual
deriving DecidableEq

inductive TestRunner where
  | vitest
  | jest
  | none
deriving DecidableEq

/-- The configuration object collected by the CLI shell.  Optional Boolean
flags that the generators read (`useCodecov` is optional in the source) are
modelled as plain `Bool`s, with `false` playing the role of `undefined`. -/
structure ProjectConfig where
  packageName : String
  language : Language
  moduleType : ModuleType
  testRunner : TestRunner
  useLinting : Bool
  useChangesets : Bool
  setupCI : Bool
  useCodecov : Bool
deriving DecidableEq

namespace Generators

/-! The generator module concatenated into `actionsFetcher.ts`
(`generatePackageJson`, `generateEntryPoints`, `generateScripts`,
`generateDevDependencies`). -/

/-- The value of `exports["."]`: either a plain path string (JavaScript
projects) or a conditional-exports object with optional `types`, `import`
and `require` keys (TypeScript projects). -/
inductive ExportsDot where
  | str (path : String)
  | conds (types imp req : Option String)
deriving DecidableEq

/-- The `main`, `module`, `types` and `exports` fields produced by
`generateEntryPoints`; an absent field is `none`. -/
structure EntryPoints where
  main : Option String := Option.none
  module : Option String := Option.none
  types : Option String := Option.none
  exports : Option ExportsDot := Option.none
deriving DecidableEq

/-- Embedding of `generateEntryPoints` (actionsFetcher.ts, generator half,
lines 186-247). -/
def generateEntryPoints (config : ProjectConfig) : EntryPoints :=
  if config.language = Language.javascript then
    { main := some "./src/index.js"
      module :=
        if config.moduleType = ModuleType.esm ∨ config.moduleType = ModuleType.dual
        then some "./src/index.js" else Option.none
      exports := some (ExportsDot.str "./src/index.js") }
  else
    match config.moduleType with
    | ModuleType.esm =>
      { main := some "./dist/index.js"
        types := some "./dist/index.d.ts"
        exports := some (ExportsDot.conds (some "./dist/index.d.ts")
          (some "./dist/index.js") Option.none) }
    | ModuleType.commonjs =>
      { main := some "./dist/index.js"
        types := some "./dist/index.d.ts"
        exports := some (ExportsDot.conds (some "./dist/index.d.ts")
          Option.none (some "./dist/index.js")) }
    | ModuleType.dual =>
      { main := some "./dist/index.js"
        module := some "./dist/index.mjs"
        types := some "./dist/index.d.ts"
        exports := some (ExportsDot.conds (some "./dist/index.d.ts")
          (some "./dist/index.mjs") (some "./dist/index.js")) }

/-- Embedding of `generateScripts` (actionsFetcher.ts, generator half,
lines 252-290); the script map is an association list in insertion order. -/
def generateScripts (config : ProjectConfig) : List (String × String) :=
  (if config.language = Language.typescript then
    [("build", "tsup"), ("typecheck", "tsc --noEmit")] else [])
  ++ (match config.testRunner with
      | TestRunner.vitest => [("test", "vitest run"), ("test:watch", "vitest")]
      | TestRunner.jest => [("test", "jest"), ("test:watch", "jest --watch")]
      | TestRunner.none => [])
  ++ (if config.useLinting then
        let ext := if config.language = Language.typescript then "ts" else "js"
        [("lint", "eslint . --ext ." ++ ext),
         ("lint:fix", "eslint . --ext ." ++ ext ++ " --fix"),
         ("format", "prettier --write \"src/**/*.\x7bts,js,json,md\x7d\""),
         ("format:check", "prettier --check \"src/**/*.\x7bts,js,json,md\x7d\"")]
      else [])
  ++ (if config.language = Language.typescript then
        [("check:exports", "attw --pack")] else [])
  ++ (if config.language = Language.typescript then
        [("prepublishOnly", "npm run build")] else [])

/-- Embedding of `generateDevDependencies` (actionsFetcher.ts, generator
half, lines 295-335): the hardcoded dependency map of this generator. -/
def generateDevDependencies (config : ProjectConfig) : List (String × String) :=
  (if config.language = Language.typescript then
    [("typescript", "^5.3.3"), ("tsup", "^8.0.1"), ("@types/node", "^20.11.0"),
     ("@arethetypeswrong/cli", "^0.15.0")] else [])
  ++ (match config.testRunner with
      | TestRunner.vitest => [("vitest", "^1.2.0")]
      | TestRunner.jest =>
        ("jest", "^29.7.0") ::
        (if config.language = Language.typescript then
          [("ts-jest", "^29.1.1"), ("@types/jest", "^29.5.11")] else [])
      | TestRunner.none => [])
  ++ (if config.useLinting then
        (if config.language = Language.typescript then
          [("@typescript-eslint/eslint-plugin", "^6.19.0"),
           ("@typescript-eslint/parser", "^6.19.0")] else [])
        ++ [("eslint", "^8.56.0"), ("prettier", "^3.2.4"),
            ("eslint-config-prettier", "^9.1.0")]
      else [])
  ++ (if config.useChangesets then [("@changesets/cli", "^2.27.1")] else [])

/-- The package.json object assembled by `generatePackageJson`
(actionsFetcher.ts, generator half, lines 153-176). -/
structure PackageJson where
  name : String
  version : String
  description : String
  type : String
  entryPoints : EntryPoints
  files : List String
  scripts : List (String × String)
  keywords : List String
  author : String
  license : String
  devDependencies : List (String × String)
deriving DecidableEq

/-- Embedding of `generatePackageJson` (actionsFetcher.ts, generator half):
the `release` script added for changesets lands at the end of the script
map. -/
def generatePackageJson (config : ProjectConfig) : PackageJson :=
  { name := config.packageName
    version := "0.1.0"
    description := "A new npm package"
    type := if config.moduleType = ModuleType.commonjs then "commonjs" else "module"
    entryPoints := generateEntryPoints config
    files := if config.language = Language.typescript then ["dist"] else ["src"]
    scripts := generateScripts config
      ++ (if config.useChangesets then [("release", "changeset publish")] else [])
    keywords := []
    author := ""
    license := "MIT"
    devDependencies := generateDevDependencies config }

end Generators

namespace VersionFetcher

/-! Embedding of `versionFetcher.ts`: dynamic npm version resolution with
the three-tier fallback chain. -/

/-- The `VersionResult` interface: optional fields are `Option`s exactly as
in the TypeScript interface. -/
structure VersionResult where
  version : String
  warning : Option String := Option.none
  usedFallback : Option Bool := Option.none
deriving DecidableEq

/-- Embedding of `compareVersions` (versionFetcher.ts lines 21-30): split
both strings on `"."`, coerce each part with `Number`, and compare up to
three components; a `NaN` or `undefined` comparison decides nothing and the
loop moves on. -/
def compareVersions (a b : String) : Int :=
  let ap := (splitOnChar '.' a.data).map jsNumber
  let bp := (splitOnChar '.' b.data).map jsNumber
  let step (i : Nat) : Option Int :=
    match (ap.get? i).join, (bp.get? i).join with
    | some x, some y =>
      if x > y then some 1 else if x < y then some (-1) else Option.none
    | _, _ => Option.none
  match step 0 with
  | some r => r
  | Option.none =>
    match step 1 with
    | some r => r
    | Option.none =>
      match step 2 with
      | some r => r
      | Option.none => 0

/-- The strict stable-version test of the source, a match against the
pattern "digits, dot, digits, dot, digits" anchored on both sides. -/
def isStrictSemver (v : String) : Bool :=
  match splitOnChar '.' v.data with
  | [a, b, c] =>
    !a.isEmpty && a.all (·.isDigit) && !b.isEmpty && b.all (·.isDigit) &&
    !c.isEmpty && c.all (·.isDigit)
  | _ => false

/-- Numeric (major, minor, patch) key of a strict semver string. -/
def semverTriple (v : String) : Nat × Nat × Nat :=
  match splitOnChar '.' v.data with
  | [a, b, c] => (digitsToNat a, digitsToNat b, digitsToNat c)
  | _ => (0, 0, 0)

/-- Lexicographic "not newer than" on numeric (major, minor, patch) keys:
the ordering the specification demands (compare major, then minor, then
patch numerically, not lexically). -/
def tripleLe : Nat × Nat × Nat → Nat × Nat × Nat → Prop
  | (a1, a2, a3), (b1, b2, b3) =>
    a1 < b1 ∨ (a1 = b1 ∧ (a2 < b2 ∨ (a2 = b2 ∧ a3 ≤ b3)))

instance : DecidableRel tripleLe := fun a b => by
  unfold tripleLe
  exact inferInstanceAs (Decidable _)

/-- Version `a` sorts no later than version `b` under the source
comparator. -/
def verLe (a b : String) : Bool := decide (compareVersions a b ≤ 0)

/-- JavaScript `version.split('.').map(Number)[0]`, the major component. -/
def versionMajor (version : String) : Option Int :=
  (((splitOnChar '.' version.data).map jsNumber).get? 0).join

/-- JavaScript `version.split('.').map(Number)[1]`, the minor component. -/
def versionMinor (version : String) : Option Int :=
  (((splitOnChar '.' version.data).map jsNumber).get? 1).join

/-- Embedding of `generateWarning` (versionFetcher.ts lines 35-57). -/
def generateWarning (pkg version : String) (daysOld : Int) : Option String :=
  let major := versionMajor version
  let minor := versionMinor version
  let prevMajorStr :=
    match major with
    | some m => toString (m - 1)
    | Option.none => "NaN"
  let days := toString daysOld ++ " day" ++ (if daysOld = 1 then "" else "s")
  if minor = some 0 ∧ daysOld < 30 then
    some ("⚠️  " ++ pkg ++ "@" ++ version ++ " (" ++ days ++ " old)\n" ++
      "   New major version - may contain breaking changes.\n" ++
      "   If issues occur, downgrade: " ++
      ("npm install " ++ pkg ++ "@" ++ prevMajorStr))
  else if minor = some 1 ∧ daysOld < 14 then
    some ("⚠️  " ++ pkg ++ "@" ++ version ++ " (" ++ days ++ " old)\n" ++
      "   " ++ "Recently released" ++ " - may have early bugs.")
  else Option.none

/-- The JSON body of the full-registry query: the keys of `data.versions`
and the `data.time` map, publish timestamps as epoch milliseconds. -/
structure RegistryData where
  versions : List String
  time : List (String × Int)
deriving DecidableEq

/-- Publish timestamp of `v` under the `data.time?.[version] || Date.now()`
fallback of the source: a missing entry, or the falsy timestamp `0`, is
replaced by the current time. -/
def publishMillis (rd : RegistryData) (now : Int) (v : String) : Int :=
  match List.lookup v rd.time with
  | some t => if t = 0 then now else t
  | Option.none => now

/-- Whole days since publication, `Math.floor` of the millisecond
difference divided by 86 400 000. -/
def daysOld (rd : RegistryData) (now : Int) (v : String) : Int :=
  Int.fdiv (now - publishMillis rd now v) 86400000

/-- The filtered list of stable versions: no pre-release dash, strict
three-component numeric shape. -/
def stableVersions (rd : RegistryData) : List String :=
  (rd.versions.filter (fun v => !(v.data.contains '-'))).filter isStrictSemver

/-- The stable versions sorted by `compareVersions` and reversed, newest
first, exactly as in the source. -/
def sortedStable (rd : RegistryData) : List String :=
  (insertionSort verLe (stableVersions rd)).reverse

/-- The tier-2 result: the literal string `latest`, flagged as fallback. -/
def latestFallback (pkg : String) : VersionResult :=
  { version := "latest"
    usedFallback := some true
    warning := some ("⚠️  " ++ "Could not fetch" ++ (" " ++ pkg ++
      " versions, using \"latest\"")) }

/-- Embedding of `getStableFallbackVersion` (versionFetcher.ts lines
62-118); the early `throw` on an empty stable list is caught by the same
`catch` that handles a failed fetch, hence the shared `latestFallback`. -/
def getStableFallbackVersion (pkg : String) (now : Int)
    (data : Option RegistryData) : VersionResult :=
  match data with
  | Option.none => latestFallback pkg
  | some rd =>
    match (sortedStable rd).find? (fun v => decide (30 ≤ daysOld rd now v)) with
    | some v =>
      { version := "^" ++ v
        usedFallback := some true
        warning := some ("ℹ️  Using stable fallback: " ++ pkg ++ "@" ++ v ++
          " (" ++ toString (daysOld rd now v) ++ " days old)") }
    | Option.none =>
      match sortedStable rd with
      | [] => latestFallback pkg
      | v :: _ =>
        { version := "^" ++ v
          usedFallback := some true
          warning := some ("ℹ️  Using fallback: " ++ pkg ++ "@" ++ v) }

/-- The JSON body of the latest-version query. -/
structure LatestData where
  version : String
  time : List (String × Int)
deriving DecidableEq

/-- Embedding of `getLatestVersionWithFallback` (versionFetcher.ts lines
123-148), with both network calls as oracles. -/
def getLatestVersionWithFallback (pkg : String) (now : Int)
    (latest : Option LatestData) (registry : Option RegistryData) : VersionResult :=
  match latest with
  | some d =>
    let published :=
      match List.lookup d.version d.time with
      | some t => if t = 0 then now else t
      | Option.none => now
    let dOld := Int.fdiv (now - published) 86400000
    { version := "^" ++ d.version, warning := generateWarning pkg d.version dOld }
  | Option.none => getStableFallbackVersion pkg now registry

/-- A caret-prefixed strict semver string, the shape of both resolution
tiers that return a concrete version. -/
def isCaretSemver (s : String) : Prop :=
  ∃ v, isStrictSemver v = true ∧ s = "^" ++ v

end VersionFetcher

namespace NodeFetcher

/-! Embedding of `nodeFetcher.ts`: Node.js LTS version resolution. -/

structure NodeVersionConfig where
  minimum : Nat
  engines : String
  ciMatrix : List Nat
  latestLTS : Nat
deriving DecidableEq

/-- An entry of the Node.js distribution index: `lts` is `false` or an LTS
codename, modelled as `Option String`. -/
structure NodeDistVersion where
  version : String
  date : String
  lts : Option String
deriving DecidableEq

/-- The static fallback configuration (nodeFetcher.ts lines 24-29). -/
def FALLBACK_NODE_CONFIG : NodeVersionConfig :=
  { minimum := 20, engines := ">=20.0.0", ciMatrix := [20, 22], latestLTS := 22 }

/-- The static end-of-life table (nodeFetcher.ts lines 34-41), with each
date under the order-preserving `yyyymmdd` integer encoding (comparing
`getTime` values respects exactly this order). -/
def EOL_DATES : Nat → Option Nat
  | 16 => some 20230911
  | 18 => some 20250430
  | 20 => some 20260430
  | 22 => some 20270430
  | 24 => some 20280430
  | 26 => some 20290430
  | _ => Option.none

/-- Embedding of `isPastEOL` (nodeFetcher.ts lines 33-51): a major absent
from the table is assumed still active; `now` uses the same `yyyymmdd`
encoding. -/
def isPastEOL (now : Nat) (majorVersion : Nat) : Bool :=
  match EOL_DATES majorVersion with
  | Option.none => false
  | some eolDate => decide (now > eolDate)

/-- The major-version extraction of the source: the leading digits after a
mandatory `v`, and `0` whenever the pattern does not match. -/
def parseMajorTag (s : String) : Nat :=
  match s.data with
  | 'v' :: rest =>
    let ds := rest.takeWhile (·.isDigit)
    if ds = [] then 0 else digitsToNat ds
  | _ => 0

/-- The uniqueness filter of the source (keep an element at index `i` only
when `arr.indexOf(v) === i`): keep the first occurrence of each element. -/
def dedupFirst (seen : List Nat) : List Nat → List Nat
  | [] => []
  | x :: xs => if x ∈ seen then dedupFirst seen xs else x :: dedupFirst (x :: seen) xs

/-- The raw majors kept by the filter chain: LTS designation, parseable and
positive major, not past end of life. -/
def keptMajors (now : Nat) (versions : List NodeDistVersion) : List Nat :=
  ((versions.filter (fun v => v.lts.isSome)).map
    (fun v => parseMajorTag v.version)).filter
      (fun v => decide (0 < v) && !isPastEOL now v)

/-- The deduplicated, descending-sorted LTS majors. -/
def ltsMajors (now : Nat) (versions : List NodeDistVersion) : List Nat :=
  insertionSort (fun a b => decide (b ≤ a)) (dedupFirst [] (keptMajors now versions))

/-- Embedding of `getNodeLTSVersions` (nodeFetcher.ts lines 56-98); the
`throw` on an empty LTS list is caught by the same `catch` that handles a
failed fetch, hence both return the static fallback. -/
def getNodeLTSVersions (now : Nat)
    (fetched : Option (List NodeDistVersion)) : NodeVersionConfig :=
  match fetched with
  | Option.none => FALLBACK_NODE_CONFIG
  | some versions =>
    match ltsMajors now versions with
    | [] => FALLBACK_NODE_CONFIG
    | latestLTS :: rest =>
      let minimum :=
        match rest with
        | [] => latestLTS
        | second :: _ => second
      { minimum := minimum
        engines := ">=" ++ toString minimum ++ ".0.0"
        ciMatrix := (latestLTS :: rest).take 2
        latestLTS := latestLTS }

end NodeFetcher

namespace Workflows

/-! Embedding of `generators/workflows.ts`, the canonical
dynamically-versioned CI workflow builder. -/

/-- The `ActionVersionResult` interface (actionsFetcher.ts lines 6-10). -/
structure ActionVersionResult where
  version : String
  warning : Option String := Option.none
  usedFallback : Option Bool := Option.none
deriving DecidableEq

/-- The per-action version with its fixed fallback tag: a missing map
entry, or a falsy (empty) version string, yields the fallback. -/
def getActionVersion (av : List (String × ActionVersionResult))
    (key fallback : String) : String :=
  match List.lookup key av with
  | some r => if r.version = "" then fallback else r.version
  | Option.none => fallback

def checkoutStep (v : String) : String :=
  "      - name: Checkout code\n        uses: actions/checkout@" ++ v

def setupNodeStep (v : String) : String :=
  "      - name: Setup Node.js $\x7b\x7b matrix.node-version \x7d\x7d\n        uses: actions/setup-node@"
  ++ (v ++ "\n        with:\n          node-version: $\x7b\x7b matrix.node-version \x7d\x7d")

def installStep : String :=
  "      - name: Install dependencies\n        run: npm install"

def typecheckStep : String :=
  "      - name: Type check\n        run: npm run typecheck"

def lintStep : String :=
  "      - name: Lint\n        run: npm run lint"

def testStep (setupCI : Bool) : String :=
  "      - name: Run tests\n        run: " ++
    (if setupCI then "npm run test:coverage" else "npm test")

def buildStep : String :=
  "      - name: Build\n        " ++ "run: npm run build"

/-- The name line opening the coverage-upload step. -/
def codecovMarker : String := "      - name: Upload coverage to Codecov"

/-- The gate restricting the coverage upload to the latest-LTS matrix
entry. -/
def codecovGate (latestLTS : Nat) : String :=
  "if: matrix.node-version == '" ++ toString latestLTS ++ "'"

def codecovStep (v : String) (latestLTS : Nat) : String :=
  codecovMarker ++ ("\n        " ++ codecovGate latestLTS ++
    ("\n        uses: codecov/codecov-action@" ++ v ++ "\n        ") ++
    "continue-on-error: true" ++
    "\n        with:\n          token: $\x7b\x7b secrets.CODECOV_TOKEN \x7d\x7d\n          fail_ci_if_error: false")

/-- The `steps` array built by `generateCIWorkflow` (workflows.ts lines
26-74): three unconditional setup steps, then the conditional typecheck,
lint and test steps, the unconditional build step, and the conditional
Codecov upload step. -/
def ciSteps (config : ProjectConfig) (nodeConfig : NodeFetcher.NodeVersionConfig)
    (actionVersions : List (String × ActionVersionResult)) : List String :=
  [checkoutStep (getActionVersion actionVersions "actions/checkout" "v4"),
   setupNodeStep (getActionVersion actionVersions "actions/setup-node" "v4"),
   installStep]
  ++ (if config.language = Language.typescript then [typecheckStep] else [])
  ++ (if config.useLinting then [lintStep] else [])
  ++ (if config.testRunner ≠ TestRunner.none then [testStep config.setupCI] else [])
  ++ [buildStep]
  ++ (if config.testRunner ≠ TestRunner.none ∧ config.useCodecov then
        [codecovStep (getActionVersion actionVersions "codecov/codecov-action" "v4")
          nodeConfig.latestLTS]
      else [])

/-- The `steps.join('\n\n')` of the source. -/
def joinSep (sep : String) : List String → String
  | [] => ""
  | [s] => s
  | s :: rest => s ++ (sep ++ joinSep sep rest)

/-- Embedding of `generateCIWorkflow` (workflows.ts lines 13-98): the final
YAML text. -/
def generateCIWorkflow (config : ProjectConfig)
    (nodeConfig : NodeFetcher.NodeVersionConfig)
    (actionVersions : List (String × ActionVersionResult)) : String :=
  "name: CI\n\non:\n  push:\n    branches: [main]\n  pull_request:\n    branches: [main]\n\njobs:\n  test:\n    runs-on: ubuntu-latest\n    strategy:\n      matrix:\n        node-version: ["
  ++ joinSep ", " (nodeConfig.ciMatrix.map toString)
  ++ "]\n    steps:\n"
  ++ joinSep "\n\n" (ciSteps config nodeConfig actionVersions)
  ++ "\n"

end Workflows

namespace PackageJsonGen

/-! The canonical package.json generator (`generators/packageJson.ts`).
The module itself is not among the provided sources — only its test file
`generators/packageJson.test.ts` is — so the two pieces the claims need are
modelled from the specification. -/

/-- Modelled from the spec: the scripts builder of the missing
`generators/packageJson.ts` module (only its test file is in the sources).
Spec section 4.4: `build`, `typecheck`, `prepublishOnly` and
`check:exports` iff typescript; `test` and `test:watch` iff a test runner
is chosen; the lint family (`lint`, `lint:fix`, `format`, `format:check`)
iff `useLinting`, with flat-config ESLint commands that carry no
file-extension flag (spec section 8 gives the exact commands); `release`
iff `useChangesets`. -/
def generateScripts (config : ProjectConfig) : List (String × String) :=
  (if config.language = Language.typescript then
    [("build", "tsup"), ("typecheck", "tsc --noEmit")] else [])
  ++ (match config.testRunner with
      | TestRunner.vitest => [("test", "vitest run"), ("test:watch", "vitest")]
      | TestRunner.jest => [("test", "jest"), ("test:watch", "jest --watch")]
      | TestRunner.none => [])
  ++ (if config.useLinting then
        [("lint", "eslint ."),
         ("lint:fix", "eslint . --fix"),
         ("format", "prettier --write \"src/**/*.\x7bts,js,json,md\x7d\""),
         ("format:check", "prettier --check \"src/**/*.\x7bts,js,json,md\x7d\"")]
      else [])
  ++ (if config.language = Language.typescript then
        [("check:exports", "attw --pack"), ("prepublishOnly", "npm run build")]
      else [])
  ++ (if config.useChangesets then [("release", "changeset publish")] else [])

/-- Modelled from the spec: the dev-dependency package names accumulated
per flag by the missing `generators/packageJson.ts` module (spec section
4.4: typescript tools, test-runner packages, lint packages, changesets
package). -/
def devDependencyNames (config : ProjectConfig) : List String :=
  (if config.language = Language.typescript then
    ["typescript", "tsup", "@types/node", "@arethetypeswrong/cli"] else [])
  ++ (match config.testRunner with
      | TestRunner.vitest => ["vitest"]
      | TestRunner.jest =>
        "jest" :: (if config.language = Language.typescript then
          ["ts-jest", "@types/jest"] else [])
      | TestRunner.none => [])
  ++ (if config.useLinting then
        (if config.language = Language.typescript then
          ["@typescript-eslint/eslint-plugin", "@typescript-eslint/parser"]
         else [])
        ++ ["eslint", "prettier", "eslint-config-prettier"]
      else [])
  ++ (if config.useChangesets then ["@changesets/cli"] else [])

/-- Modelled from the spec: the devDependencies map of the missing
`generators/packageJson.ts` module; each entry's version string is taken
from the VersionResolver result for that package name (spec section 4.4:
the builder must not hardcode any fetched package's version inline). -/
def generateDevDependencies (config : ProjectConfig)
    (resolve : String → VersionFetcher.VersionResult) : List (String × String) :=
  (devDependencyNames config).map (fun n => (n, (resolve n).version))

end PackageJsonGen

/-! Claim-level vocabulary. -/

/-- Shape classification of an `exports["."]` value: absent, a plain string
path, or a conditional object characterised by which of its three keys are
present. -/
inductive ExportsShape where
  | undefinedShape
  | plain (path : String)
  | keys (types imp req : Bool)
deriving DecidableEq

/-- Classify the `exports["."]` value produced by the generator. -/
def exportsShape : Option Generators.ExportsDot → ExportsShape
  | Option.none => ExportsShape.undefinedShape
  | some (Generators.ExportsDot.str p) => ExportsShape.plain p
  | some (Generators.ExportsDot.conds t i r) =>
    ExportsShape.keys t.isSome i.isSome r.isSome

/-- The exact shape the claim specifies for each (language, moduleType)
pair: javascript always the plain string, typescript the conditional object
with exactly the stated key set. -/
def expectedExportsShape : Language → ModuleType → ExportsShape
  | Language.javascript, _ => ExportsShape.plain "./src/index.js"
  | Language.typescript, ModuleType.esm => ExportsShape.keys true true false
  | Language.typescript, ModuleType.commonjs => ExportsShape.keys true false true
  | Language.typescript, ModuleType.dual => ExportsShape.keys true true true

/-- A concrete configuration used to instantiate universally quantified
theorems: typescript, dual format, vitest, linting on, Codecov on. -/
def sampleConfigTsDual : ProjectConfig :=
  { packageName := "demo-pkg", language := Language.typescript,
    moduleType := ModuleType.dual, testRunner := TestRunner.vitest,
    useLinting := true, useChangesets := false, setupCI := true,
    useCodecov := true }

/-- A concrete resolver assigning every package the same caret version,
used to instantiate resolver-parametric theorems. -/
def sampleResolver : String → VersionFetcher.VersionResult :=
  fun _ => { version := "^1.2.3" }

/-- A concrete registry answer used to instantiate registry-parametric
theorems: two stable versions and one pre-release. -/
def sampleRegistry : VersionFetcher.RegistryData :=
  { versions := ["1.0.0", "2.0.0", "2.1.0-rc.1"]
    time := [("1.0.0", 1), ("2.0.0", 86400000 * 360)] }

/-! Helper lemmas about the list and string utilities. -/

theorem listLeadsB_iff [DecidableEq α] (p l : List α) :
    listLeadsB p l = true ↔ ∃ r, p ++ r = l := by
  induction p generalizing l with
  | nil => simp [listLeadsB]
  | cons a p ih =>
    cases l with
    | nil => simp [listLeadsB]
    | cons b l =>
      simp only [listLeadsB, Bool.and_eq_true, decide_eq_true_eq, ih]
      constructor
      · rintro ⟨rfl, r, rfl⟩; exact ⟨r, rfl⟩
      · rintro ⟨r, h⟩
        obtain ⟨h1, h2⟩ := List.cons.inj h
        exact ⟨h1, r, h2⟩

theorem listWithinB_iff [DecidableEq α] (t s : List α) :
    listWithinB t s = true ↔ ∃ p q, p ++ t ++ q = s := by
  induction s with
  | nil =>
    simp only [listWithinB, decide_eq_true_eq]
    constructor
    · rintro rfl; exact ⟨[], [], rfl⟩
    · rintro ⟨p, q, h⟩
      rcases List.append_eq_nil.mp h with ⟨h1, h2⟩
      exact (List.append_eq_nil.mp h1).2
  | cons b rest ih =>
    simp only [listWithinB, Bool.or_eq_true, listLeadsB_iff, ih]
    constructor
    · rintro (⟨r, h⟩ | ⟨p, q, h⟩)
      · exact ⟨[], r, by simpa using h⟩
      · exact ⟨b :: p, q, by simp [h]⟩
    · rintro ⟨p, q, h⟩
      cases p with
      | nil => exact Or.inl ⟨q, by simpa using h⟩
      | cons x p =>
        obtain ⟨rfl, h2⟩ := List.cons.inj h
        exact Or.inr ⟨p, q, h2⟩

theorem listLeadsB_append_of_le [DecidableEq α] (p l r : List α)
    (h : p.length ≤ l.length) : listLeadsB p (l ++ r) = listLeadsB p l := by
  induction p generalizing l with
  | nil => simp [listLeadsB]
  | cons a p ih =>
    cases l with
    | nil => simp at h
    | cons b l =>
      simp only [List.cons_append, listLeadsB, List.append_eq]
      rw [ih l (by simpa using h)]

theorem listLeadsB_self_append [DecidableEq α] (p r : List α) :
    listLeadsB p (p ++ r) = true := by
  induction p with
  | nil => simp [listLeadsB]
  | cons a p ih => simp [listLeadsB, ih]

theorem strData_append (a b : String) : (a ++ b).data = a.data ++ b.data := rfl

theorem containsStr_self (t : String) : containsStr t t := by
  rw [containsStr, listWithinB_iff]
  exact ⟨[], [], by simp⟩

theorem containsStr_appL (u s t : String) (h : containsStr s t) :
    containsStr (u ++ s) t := by
  rw [containsStr, listWithinB_iff] at h ⊢
  obtain ⟨p, q, hpq⟩ := h
  exact ⟨u.data ++ p, q, by rw [strData_append, ← hpq]; simp [List.append_assoc]⟩

theorem containsStr_appR (s u t : String) (h : containsStr s t) :
    containsStr (s ++ u) t := by
  rw [containsStr, listWithinB_iff] at h ⊢
  obtain ⟨p, q, hpq⟩ := h
  exact ⟨p, q ++ u.data, by rw [strData_append, ← hpq]; simp [List.append_assoc]⟩

theorem beginsWith_append (t r : String) : beginsWith (t ++ r) t := by
  rw [beginsWith, strData_append]
  exact listLeadsB_self_append t.data r.data

theorem mem_orderedInsert (le : α → α → Bool) (a x : α) (l : List α) :
    x ∈ orderedInsert le a l ↔ x = a ∨ x ∈ l := by
  induction l with
  | nil => simp [orderedInsert]
  | cons b l ih =>
    simp only [orderedInsert]
    split
    · simp
    · simp only [List.mem_cons, ih]
      tauto

theorem orderedInsert_perm (le : α → α → Bool) (a : α) (l : List α) :
    (orderedInsert le a l).Perm (a :: l) := by
  induction l with
  | nil => simp [orderedInsert]
  | cons b l ih =>
    simp only [orderedInsert]
    split
    · exact List.Perm.refl _
    · exact (ih.cons b).trans (List.Perm.swap a b l)

theorem insertionSort_perm (le : α → α → Bool) (l : List α) :
    (insertionSort le l).Perm l := by
  induction l with
  | nil => exact List.Perm.refl _
  | cons a l ih =>
    exact (orderedInsert_perm le a (insertionSort le l)).trans (ih.cons a)

theorem mem_insertionSort (le : α → α → Bool) (x : α) (l : List α) :
    x ∈ insertionSort le l ↔ x ∈ l :=
  (insertionSort_perm le l).mem_iff

theorem pairwise_orderedInsert (le : α → α → Bool) (p : α → Prop)
    (total : ∀ a b, p a → p b → le a b = true ∨ le b a = true)
    (trans : ∀ a b c, p a → p b → p c →
      le a b = true → le b c = true → le a c = true)
    (a : α) (ha : p a) (l : List α) (hl : ∀ x ∈ l, p x)
    (hs : l.Pairwise (fun x y => le x y = true)) :
    (orderedInsert le a l).Pairwise (fun x y => le x y = true) := by
  induction l with
  | nil => simp [orderedInsert]
  | cons b l ih =>
    have hb : p b := hl b (by simp)
    have hl' : ∀ x ∈ l, p x := fun x hx => hl x (by simp [hx])
    rw [List.pairwise_cons] at hs
    simp only [orderedInsert]
    by_cases hab : le a b = true
    · rw [if_pos hab]
      refine List.Pairwise.cons ?_ (List.Pairwise.cons hs.1 hs.2)
      intro y hy
      rcases List.mem_cons.mp hy with rfl | hy
      · exact hab
      · exact trans a b y ha hb (hl' y hy) hab (hs.1 y hy)
    · rw [if_neg hab]
      have hba : le b a = true := by
        rcases total a b ha hb with h | h
        · exact absurd h hab
        · exact h
      refine List.Pairwise.cons ?_ (ih hl' hs.2)
      intro y hy
      rcases (mem_orderedInsert le a y l).mp hy with rfl | hy
      · exact hba
      · exact hs.1 y hy

theorem pairwise_insertionSort (le : α → α → Bool) (p : α → Prop)
    (total : ∀ a b, p a → p b → le a b = true ∨ le b a = true)
    (trans : ∀ a b c, p a → p b → p c →
      le a b = true → le b c = true → le a c = true)
    (l : List α) (hl : ∀ x ∈ l, p x) :
    (insertionSort le l).Pairwise (fun x y => le x y = true) := by
  induction l with
  | nil => simp [insertionSort]
  | cons a l ih =>
    have ha : p a := hl a (by simp)
    have hl' : ∀ x ∈ l, p x := fun x hx => hl x (by simp [hx])
    exact pairwise_orderedInsert le p total trans a ha _
      (fun x hx => hl' x ((mem_insertionSort le x l).mp hx)) (ih hl')

theorem lookup_map_pair (f : String → String) (n : String) (ns : List String) :
    List.lookup n (ns.map (fun m => (m, f m))) =
      if n ∈ ns then some (f n) else Option.none := by
  induction ns with
  | nil => simp [List.lookup]
  | cons m t ih =>
    by_cases h : n = m
    · subst h
      simp [List.lookup]
    · have hbeq : (n == m) = false := by
        simpa using h
      simp only [List.map, List.lookup, hbeq, ih, List.mem_cons]
      rw [if_congr (iff_of_eq (congrArg _ rfl)) rfl rfl]
      by_cases hm : n ∈ t <;> simp [hm, h]

theorem mem_joinSep (sep : String) (l : List String) (s : String)
    (hs : s ∈ l) (t : String) (ht : containsStr s t) :
    containsStr (Workflows.joinSep sep l) t := by
  induction l with
  | nil => cases hs
  | cons x rest ih =>
    cases rest with
    | nil =>
      rcases List.mem_cons.mp hs with rfl | h
      · exact ht
      · cases h
    | cons y rest' =>
      rcases List.mem_cons.mp hs with rfl | h
      · exact containsStr_appR _ _ _ ht
      · exact containsStr_appL x _ t (containsStr_appL sep _ t (ih h))

theorem mem_if_nil {p : Prop} [Decidable p] {l : List α} {a : α} :
    a ∈ (if p then l else []) ↔ p ∧ a ∈ l := by
  split
  · simp_all
  · simp_all

/-! Lemmas about the version comparator: on strict semver strings it agrees
with the numeric lexicographic order on (major, minor, patch). -/

theorem strict_parts (v : String) (h : VersionFetcher.isStrictSemver v = true) :
    ∃ x y z, splitOnChar '.' v.data = [x, y, z] ∧
      x.all (·.isDigit) = true ∧ y.all (·.isDigit) = true ∧
      z.all (·.isDigit) = true := by
  unfold VersionFetcher.isStrictSemver at h
  split at h
  next x y z heq =>
    refine ⟨x, y, z, heq, ?_, ?_, ?_⟩ <;> simp_all [Bool.and_eq_true]
  next => exact absurd h (by simp)

theorem jsNumber_digits (s : List Char) (h : s.all (·.isDigit) = true) :
    jsNumber s = some (digitsToNat s) := by
  unfold jsNumber
  by_cases he : s = []
  · subst he
    simp [digitsToNat]
  · simp [he, h]

theorem semverTriple_eq (v : String) (x y z : List Char)
    (h : splitOnChar '.' v.data = [x, y, z]) :
    VersionFetcher.semverTriple v = (digitsToNat x, digitsToNat y, digitsToNat z) := by
  unfold VersionFetcher.semverTriple
  rw [h]

theorem tripleLe_def (a1 a2 a3 b1 b2 b3 : Nat) :
    VersionFetcher.tripleLe (a1, a2, a3) (b1, b2, b3) ↔
      (a1 < b1 ∨ (a1 = b1 ∧ (a2 < b2 ∨ (a2 = b2 ∧ a3 ≤ b3)))) := Iff.rfl

theorem compareVersions_strict (a b : String) (x y z x' y' z' : List Char)
    (hA : splitOnChar '.' a.data = [x, y, z])
    (hB : splitOnChar '.' b.data = [x', y', z'])
    (hx : x.all (·.isDigit) = true) (hy : y.all (·.isDigit) = true)
    (hz : z.all (·.isDigit) = true) (hx' : x'.all (·.isDigit) = true)
    (hy' : y'.all (·.isDigit) = true) (hz' : z'.all (·.isDigit) = true) :
    VersionFetcher.compareVersions a b =
      (if digitsToNat x' < digitsToNat x then 1
       else if digitsToNat x < digitsToNat x' then -1
       else if digitsToNat y' < digitsToNat y then 1
       else if digitsToNat y < digitsToNat y' then -1
       else if digitsToNat z' < digitsToNat z then 1
       else if digitsToNat z < digitsToNat z' then -1
       else 0) := by
  unfold VersionFetcher.compareVersions
  rw [hA, hB]
  simp only [List.map_cons, List.map_nil, jsNumber_digits _ hx, jsNumber_digits _ hy,
    jsNumber_digits _ hz, jsNumber_digits _ hx', jsNumber_digits _ hy',
    jsNumber_digits _ hz', List.get?_cons_zero, List.get?_cons_succ, List.get?_nil]
  by_cases h1 : digitsToNat x' < digitsToNat x
  · simp [h1, Nat.lt_asymm h1, gt_iff_lt, Nat.cast_lt]
  · by_cases h2 : digitsToNat x < digitsToNat x'
    · simp [h1, h2, gt_iff_lt, Nat.cast_lt]
    · by_cases h3 : digitsToNat y' < digitsToNat y
      · simp [h1, h2, h3, Nat.lt_asymm h3, gt_iff_lt, Nat.cast_lt]
      · by_cases h4 : digitsToNat y < digitsToNat y'
        · simp [h1, h2, h3, h4, gt_iff_lt, Nat.cast_lt]
        · by_cases h5 : digitsToNat z' < digitsToNat z
          · simp [h1, h2, h3, h4, h5, Nat.lt_asymm h5, gt_iff_lt, Nat.cast_lt]
          · by_cases h6 : digitsToNat z < digitsToNat z'
            · simp [h1, h2, h3, h4, h5, h6, gt_iff_lt, Nat.cast_lt]
            · simp [h1, h2, h3, h4, h5, h6, gt_iff_lt, Nat.cast_lt]

theorem verLe_iff_tripleLe (a b : String)
    (ha : VersionFetcher.isStrictSemver a = true)
    (hb : VersionFetcher.isStrictSemver b = true) :
    VersionFetcher.verLe a b = true ↔
      VersionFetcher.tripleLe (VersionFetcher.semverTriple a)
        (VersionFetcher.semverTriple b) := by
  obtain ⟨x, y, z, hA, hx, hy, hz⟩ := strict_parts a ha
  obtain ⟨x', y', z', hB, hx', hy', hz'⟩ := strict_parts b hb
  rw [VersionFetcher.verLe, decide_eq_true_eq,
    compareVersions_strict a b x y z x' y' z' hA hB hx hy hz hx' hy' hz',
    semverTriple_eq a x y z hA, semverTriple_eq b x' y' z' hB, tripleLe_def]
  split_ifs with h1 h2 h3 h4 h5 h6 <;> constructor <;> intro h <;> omega

theorem tripleLe_total (p q : Nat × Nat × Nat) :
    VersionFetcher.tripleLe p q ∨ VersionFetcher.tripleLe q p := by
  obtain ⟨a1, a2, a3⟩ := p
  obtain ⟨b1, b2, b3⟩ := q
  rw [tripleLe_def, tripleLe_def]
  omega

theorem tripleLe_trans (p q r : Nat × Nat × Nat)
    (h1 : VersionFetcher.tripleLe p q) (h2 : VersionFetcher.tripleLe q r) :
    VersionFetcher.tripleLe p r := by
  obtain ⟨a1, a2, a3⟩ := p
  obtain ⟨b1, b2, b3⟩ := q
  obtain ⟨c1, c2, c3⟩ := r
  rw [tripleLe_def] at h1 h2 ⊢
  omega

theorem verLe_total_strict (a b : String)
    (ha : VersionFetcher.isStrictSemver a = true)
    (hb : VersionFetcher.isStrictSemver b = true) :
    VersionFetcher.verLe a b = true ∨ VersionFetcher.verLe b a = true := by
  rw [verLe_iff_tripleLe a b ha hb, verLe_iff_tripleLe b a hb ha]
  exact tripleLe_total _ _

theorem verLe_trans_strict (a b c : String)
    (ha : VersionFetcher.isStrictSemver a = true)
    (hb : VersionFetcher.isStrictSemver b = true)
    (hc : VersionFetcher.isStrictSemver c = true)
    (h1 : VersionFetcher.verLe a b = true) (h2 : VersionFetcher.verLe b c = true) :
    VersionFetcher.verLe a c = true := by
  rw [verLe_iff_tripleLe a b ha hb] at h1
  rw [verLe_iff_tripleLe b c hb hc] at h2
  rw [verLe_iff_tripleLe a c ha hc]
  exact tripleLe_trans _ _ _ h1 h2

/-! Lemmas about the stable-version list of the first fallback tier. -/

theorem mem_stableVersions_iff (rd : VersionFetcher.RegistryData) (v : String) :
    v ∈ VersionFetcher.stableVersions rd ↔
      v ∈ rd.versions ∧ v.data.contains '-' = false ∧
        VersionFetcher.isStrictSemver v = true := by
  unfold VersionFetcher.stableVersions
  simp only [List.mem_filter, Bool.not_eq_true']
  constructor
  · rintro ⟨⟨h1, h2⟩, h3⟩
    exact ⟨h1, h2, h3⟩
  · rintro ⟨h1, h2, h3⟩
    exact ⟨⟨h1, h2⟩, h3⟩

theorem mem_sortedStable_iff (rd : VersionFetcher.RegistryData) (v : String) :
    v ∈ VersionFetcher.sortedStable rd ↔ v ∈ VersionFetcher.stableVersions rd := by
  unfold VersionFetcher.sortedStable
  rw [List.mem_reverse, mem_insertionSort]

theorem strict_of_mem_sortedStable (rd : VersionFetcher.RegistryData) (v : String)
    (h : v ∈ VersionFetcher.sortedStable rd) :
    VersionFetcher.isStrictSemver v = true :=
  ((mem_stableVersions_iff rd v).mp ((mem_sortedStable_iff rd v).mp h)).2.2

theorem sortedStable_perm (rd : VersionFetcher.RegistryData) :
    (VersionFetcher.sortedStable rd).Perm (VersionFetcher.stableVersions rd) :=
  (List.reverse_perm _).trans (insertionSort_perm _ _)

theorem sortedStable_pairwise (rd : VersionFetcher.RegistryData) :
    (VersionFetcher.sortedStable rd).Pairwise
      (fun a b => VersionFetcher.tripleLe (VersionFetcher.semverTriple b)
        (VersionFetcher.semverTriple a)) := by
  unfold VersionFetcher.sortedStable
  rw [List.pairwise_reverse]
  have hstrict : ∀ x ∈ VersionFetcher.stableVersions rd,
      VersionFetcher.isStrictSemver x = true :=
    fun x hx => ((mem_stableVersions_iff rd x).mp hx).2.2
  have hp := pairwise_insertionSort VersionFetcher.verLe
    (fun v => VersionFetcher.isStrictSemver v = true)
    (fun a b ha hb => verLe_total_strict a b ha hb)
    (fun a b c ha hb hc => verLe_trans_strict a b c ha hb hc)
    (VersionFetcher.stableVersions rd) hstrict
  refine List.Pairwise.imp_of_mem ?_ hp
  intro a b hma hmb hle
  have ha := hstrict a ((mem_insertionSort _ _ _).mp hma)
  have hb := hstrict b ((mem_insertionSort _ _ _).mp hmb)
  exact (verLe_iff_tripleLe a b ha hb).mp hle

/-! Lemmas about the Node LTS pipeline: deduplication and descending
sort. -/

theorem mem_dedupFirst (x : Nat) (l : List Nat) : ∀ (seen : List Nat),
    x ∈ NodeFetcher.dedupFirst seen l ↔ (x ∈ l ∧ x ∉ seen) := by
  induction l with
  | nil =>
    intro seen
    simp [NodeFetcher.dedupFirst]
  | cons a t ih =>
    intro seen
    unfold NodeFetcher.dedupFirst
    by_cases h : a ∈ seen
    · rw [if_pos h, ih seen]
      constructor
      · rintro ⟨hx, hns⟩
        exact ⟨List.mem_cons_of_mem a hx, hns⟩
      · rintro ⟨hx, hns⟩
        rcases List.mem_cons.mp hx with rfl | hx
        · exact absurd h hns
        · exact ⟨hx, hns⟩
    · rw [if_neg h]
      simp only [List.mem_cons, ih (a :: seen)]
      constructor
      · rintro (rfl | ⟨hx, hns⟩)
        · exact ⟨Or.inl rfl, h⟩
        · exact ⟨Or.inr hx, fun hm => hns (Or.inr hm)⟩
      · rintro ⟨rfl | hx, hns⟩
        · exact Or.inl rfl
        · by_cases hxa : x = a
          · exact Or.inl hxa
          · refine Or.inr ⟨hx, ?_⟩
            rintro (rfl | hmem)
            · exact hxa rfl
            · exact hns hmem

theorem nodup_dedupFirst (l : List Nat) : ∀ (seen : List Nat),
    (NodeFetcher.dedupFirst seen l).Nodup := by
  induction l with
  | nil =>
    intro seen
    simp [NodeFetcher.dedupFirst]
  | cons a t ih =>
    intro seen
    unfold NodeFetcher.dedupFirst
    by_cases h : a ∈ seen
    · rw [if_pos h]
      exact ih seen
    · rw [if_neg h]
      rw [List.nodup_cons]
      refine ⟨?_, ih (a :: seen)⟩
      intro hmem
      exact ((mem_dedupFirst a t (a :: seen)).mp hmem).2 (by simp)

theorem mem_ltsMajors (now : Nat) (versions : List NodeFetcher.NodeDistVersion)
    (m : Nat) : m ∈ NodeFetcher.ltsMajors now versions ↔
      m ∈ NodeFetcher.keptMajors now versions := by
  unfold NodeFetcher.ltsMajors
  rw [mem_insertionSort, mem_dedupFirst]
  simp

theorem mem_keptMajors_iff (now : Nat) (versions : List NodeFetcher.NodeDistVersion)
    (m : Nat) : m ∈ NodeFetcher.keptMajors now versions ↔
      ∃ e, e ∈ versions ∧ e.lts.isSome = true ∧
        NodeFetcher.parseMajorTag e.version = m ∧ 0 < m ∧
        NodeFetcher.isPastEOL now m = false := by
  unfold NodeFetcher.keptMajors
  simp only [List.mem_filter, List.mem_map, Bool.and_eq_true, decide_eq_true_eq,
    Bool.not_eq_true']
  constructor
  · rintro ⟨⟨e, ⟨he, hlts⟩, rfl⟩, hpos, heol⟩
    exact ⟨e, he, hlts, rfl, hpos, heol⟩
  · rintro ⟨e, he, hlts, rfl, hpos, heol⟩
    exact ⟨⟨e, ⟨he, hlts⟩, rfl⟩, hpos, heol⟩

theorem ltsMajors_pairwise (now : Nat) (versions : List NodeFetcher.NodeDistVersion) :
    (NodeFetcher.ltsMajors now versions).Pairwise (fun a b => a > b) := by
  have hge := pairwise_insertionSort (fun a b : Nat => decide (b ≤ a))
    (fun _ => True)
    (fun a b _ _ => by
      rcases Nat.le_total b a with h | h
      · exact Or.inl (by simpa using h)
      · exact Or.inr (by simpa using h))
    (fun a b c _ _ _ h1 h2 => by
      simp only [decide_eq_true_eq] at h1 h2 ⊢
      omega)
    (NodeFetcher.dedupFirst [] (NodeFetcher.keptMajors now versions))
    (fun _ _ => trivial)
  have hnd : (NodeFetcher.ltsMajors now versions).Nodup :=
    ((insertionSort_perm _ _).nodup_iff).mpr
      (nodup_dedupFirst (NodeFetcher.keptMajors now versions) [])
  unfold NodeFetcher.ltsMajors at hnd ⊢
  have := List.Pairwise.and hge hnd
  refine this.imp ?_
  intro a b hab
  obtain ⟨h1, h2⟩ := hab
  simp only [decide_eq_true_eq] at h1
  omega

/-! Lemmas about the CI workflow steps. -/

theorem codecov_marked (v : String) (lts : Nat) :
    beginsWith (Workflows.codecovStep v lts) Workflows.codecovMarker := by
  unfold beginsWith Workflows.codecovStep
  rw [strData_append]
  exact listLeadsB_self_append _ _

theorem codecovMarker_not_checkout (v : String) :
    ¬ beginsWith (Workflows.checkoutStep v) Workflows.codecovMarker := by
  intro h
  unfold beginsWith Workflows.checkoutStep at h
  rw [strData_append,
    listLeadsB_append_of_le _ _ _ (by decide)] at h
  exact absurd h (by decide)

theorem codecovMarker_not_setupNode (v : String) :
    ¬ beginsWith (Workflows.setupNodeStep v) Workflows.codecovMarker := by
  intro h
  unfold beginsWith Workflows.setupNodeStep at h
  rw [strData_append,
    listLeadsB_append_of_le _ _ _ (by decide)] at h
  exact absurd h (by decide)

theorem codecovMarker_not_install :
    ¬ beginsWith Workflows.installStep Workflows.codecovMarker := by
  unfold beginsWith
  decide

theorem codecovMarker_not_typecheck :
    ¬ beginsWith Workflows.typecheckStep Workflows.codecovMarker := by
  unfold beginsWith
  decide

theorem codecovMarker_not_lint :
    ¬ beginsWith Workflows.lintStep Workflows.codecovMarker := by
  unfold beginsWith
  decide

theorem codecovMarker_not_test (b : Bool) :
    ¬ beginsWith (Workflows.testStep b) Workflows.codecovMarker := by
  cases b <;> (unfold beginsWith; decide)

theorem codecovMarker_not_build :
    ¬ beginsWith Workflows.buildStep Workflows.codecovMarker := by
  unfold beginsWith
  decide

theorem codecov_contains_gate (v : String) (lts : Nat) :
    containsStr (Workflows.codecovStep v lts) (Workflows.codecovGate lts) := by
  unfold Workflows.codecovStep
  exact containsStr_appL _ _ _ (containsStr_appR _ _ _ (containsStr_appR _ _ _
    (containsStr_appR _ _ _ (containsStr_appL _ _ _ (containsStr_self _)))))

theorem codecov_contains_continue (v : String) (lts : Nat) :
    containsStr (Workflows.codecovStep v lts) "continue-on-error: true" := by
  unfold Workflows.codecovStep
  exact containsStr_appL _ _ _ (containsStr_appR _ _ _
    (containsStr_appL _ _ _ (containsStr_self _)))

theorem mem_ciSteps_iff (c : ProjectConfig) (n : NodeFetcher.NodeVersionConfig)
    (av : List (String × Workflows.ActionVersionResult)) (s : String) :
    s ∈ Workflows.ciSteps c n av ↔
      s = Workflows.checkoutStep (Workflows.getActionVersion av "actions/checkout" "v4") ∨
      s = Workflows.setupNodeStep (Workflows.getActionVersion av "actions/setup-node" "v4") ∨
      s = Workflows.installStep ∨
      (c.language = Language.typescript ∧ s = Workflows.typecheckStep) ∨
      (c.useLinting = true ∧ s = Workflows.lintStep) ∨
      (c.testRunner ≠ TestRunner.none ∧ s = Workflows.testStep c.setupCI) ∨
      s = Workflows.buildStep ∨
      ((c.testRunner ≠ TestRunner.none ∧ c.useCodecov = true) ∧
        s = Workflows.codecovStep
          (Workflows.getActionVersion av "codecov/codecov-action" "v4") n.latestLTS) := by
  unfold Workflows.ciSteps
  simp only [List.mem_append, List.mem_cons, List.mem_singleton, mem_if_nil,
    List.not_mem_nil, or_false, or_assoc]

theorem buildStep_contains_run :
    containsStr Workflows.buildStep "run: npm run build" := by
  unfold Workflows.buildStep
  exact containsStr_appL _ _ _ (containsStr_self _)

theorem buildStep_mem_ciSteps (c : ProjectConfig) (n : NodeFetcher.NodeVersionConfig)
    (av : List (String × Workflows.ActionVersionResult)) :
    Workflows.buildStep ∈ Workflows.ciSteps c n av := by
  rw [mem_ciSteps_iff]
  tauto

theorem ciWorkflow_contains_of_step (c : ProjectConfig)
    (n : NodeFetcher.NodeVersionConfig)
    (av : List (String × Workflows.ActionVersionResult)) (s t : String)
    (hs : s ∈ Workflows.ciSteps c n av) (ht : containsStr s t) :
    containsStr (Workflows.generateCIWorkflow c n av) t := by
  unfold Workflows.generateCIWorkflow
  exact containsStr_appR _ _ _ (containsStr_appL _ _ _
    (mem_joinSep _ _ _ hs _ ht))

/-! Claim theorems. -/

/-- C1: for every configuration the entry-points builder returns a defined
`exports["."]` entry whose shape is exactly the expected one for the
(language, moduleType) pair — typescript+esm exactly the key set
types/import (never require), typescript+commonjs exactly types/require
(never import), typescript+dual exactly types/import/require, and
javascript always the plain string `./src/index.js`; no combination falls
through to an undefined result. -/
theorem claim_C1_exports_key_sets (c : ProjectConfig) :
    exportsShape (Generators.generateEntryPoints c).exports =
      expectedExportsShape c.language c.moduleType := by
  obtain ⟨pn, l, m, tr, ul, uc, sci, ucov⟩ := c
  cases l <;> cases m <;> rfl

/-- C2: for typescript+dual the generated manifest's
`exports["."].import` ends in `.mjs` and `exports["."].require` ends in
`.js`, never swapped; and the package-level `type` field is `module`
exactly for esm and dual and `commonjs` exactly for commonjs. -/
theorem claim_C2_dual_extensions_and_type (c : ProjectConfig) :
    (c.language = Language.typescript ∧ c.moduleType = ModuleType.dual →
      ∃ t i r, (Generators.generateEntryPoints c).exports =
          some (Generators.ExportsDot.conds (some t) (some i) (some r)) ∧
        endsWithStr i ".mjs" ∧ endsWithStr r ".js" ∧
        ¬ endsWithStr r ".mjs" ∧ ¬ endsWithStr i ".js") ∧
    ((Generators.generatePackageJson c).type = "module" ↔
      (c.moduleType = ModuleType.esm ∨ c.moduleType = ModuleType.dual)) ∧
    ((Generators.generatePackageJson c).type = "commonjs" ↔
      c.moduleType = ModuleType.commonjs) := by
  obtain ⟨pn, l, m, tr, ul, uc, sci, ucov⟩ := c
  refine ⟨?_, ?_, ?_⟩
  · rintro ⟨h1, h2⟩
    subst h1
    subst h2
    exact ⟨_, _, _, rfl, by decide, by decide, by decide, by decide⟩
  · cases m <;> simp [Generators.generatePackageJson]
  · cases m <;> simp [Generators.generatePackageJson]

theorem claim_C2_witness :
    ∃ t i r, (Generators.generateEntryPoints sampleConfigTsDual).exports =
        some (Generators.ExportsDot.conds (some t) (some i) (some r)) ∧
      endsWithStr i ".mjs" ∧ endsWithStr r ".js" ∧
      ¬ endsWithStr r ".mjs" ∧ ¬ endsWithStr i ".js" :=
  (claim_C2_dual_extensions_and_type sampleConfigTsDual).1 ⟨rfl, rfl⟩

/-- C7: with `useLinting` the canonical scripts builder emits exactly
`lint = "eslint ."` and `lint:fix = "eslint . --fix"` (no `--ext`
substring anywhere in them) together with `format` and `format:check`;
without `useLinting` none of the four lint-family scripts exists. -/
theorem claim_C7_flat_config_lint_scripts (c : ProjectConfig) :
    List.lookup "lint" (PackageJsonGen.generateScripts c) =
      (if c.useLinting then some "eslint ." else Option.none) ∧
    List.lookup "lint:fix" (PackageJsonGen.generateScripts c) =
      (if c.useLinting then some "eslint . --fix" else Option.none) ∧
    (List.lookup "format" (PackageJsonGen.generateScripts c)).isSome = c.useLinting ∧
    (List.lookup "format:check" (PackageJsonGen.generateScripts c)).isSome = c.useLinting ∧
    ¬ containsStr "eslint ." "--ext" ∧ ¬ containsStr "eslint . --fix" "--ext" := by
  obtain ⟨pn, l, m, tr, ul, uc, sci, ucov⟩ := c
  cases l <;> cases tr <;> cases ul <;> cases uc <;>
    refine ⟨?_, ?_, ?_, ?_, by decide, by decide⟩ <;>
    simp [PackageJsonGen.generateScripts, List.lookup]

/-- C8: every entry of the devDependencies map built by the canonical
builder carries exactly the version string the VersionResolver produced
for that package name — looking any name up yields the resolver's result,
so no fetched version is hardcoded inline. -/
theorem claim_C8_dev_dependency_versions (c : ProjectConfig)
    (resolve : String → VersionFetcher.VersionResult) (n : String) :
    List.lookup n (PackageJsonGen.generateDevDependencies c resolve) =
      (if n ∈ PackageJsonGen.devDependencyNames c
       then some (resolve n).version else Option.none) ∧
    ∀ name ver, (name, ver) ∈ PackageJsonGen.generateDevDependencies c resolve →
      ver = (resolve name).version := by
  constructor
  · exact lookup_map_pair (fun m => (resolve m).version) n _
  · intro name ver hmem
    unfold PackageJsonGen.generateDevDependencies at hmem
    obtain ⟨m, hm, heq⟩ := List.mem_map.mp hmem
    injection heq with h1 h2
    subst h1
    subst h2
    rfl

theorem claim_C8_witness :
    List.lookup "typescript"
        (PackageJsonGen.generateDevDependencies sampleConfigTsDual sampleResolver) =
      some "^1.2.3" ∧
    "^1.2.3" = (sampleResolver "typescript").version :=
  ⟨((claim_C8_dev_dependency_versions sampleConfigTsDual sampleResolver
      "typescript").1).trans (by decide),
   (claim_C8_dev_dependency_versions sampleConfigTsDual sampleResolver
      "typescript").2 "typescript" "^1.2.3" (by decide)⟩

/-- C10: the generated CI workflow text contains the
`run: npm run build` step for every configuration, javascript included,
while the scripts builder defines a `build` script only for typescript —
the workflow invokes a script the generator never emits for javascript
projects. -/
theorem claim_C10_build_step_vs_scripts (c : ProjectConfig)
    (n : NodeFetcher.NodeVersionConfig)
    (av : List (String × Workflows.ActionVersionResult)) :
    containsStr (Workflows.generateCIWorkflow c n av) "run: npm run build" ∧
    List.lookup "build" (Generators.generateScripts c) =
      (if c.language = Language.typescript then some "tsup" else Option.none) := by
  constructor
  · exact ciWorkflow_contains_of_step c n av _ _
      (buildStep_mem_ciSteps c n av) buildStep_contains_run
  · obtain ⟨pn, l, m, tr, ul, uc, sci, ucov⟩ := c
    cases l <;> cases tr <;> cases ul <;>
      simp [Generators.generateScripts, List.lookup]

/-- C3: with the primary fetch failed, version resolution never throws and
every failure path yields a result with `usedFallback = true` whose version
is either a caret-prefixed strict semver or the literal `latest`; when both
registry queries fail the result is exactly the `latest` fallback, whose
warning contains "Could not fetch". -/
theorem claim_C3_resolution_failure_paths (pkg : String) (now : Int)
    (registry : Option VersionFetcher.RegistryData) :
    (VersionFetcher.getLatestVersionWithFallback pkg now Option.none registry).usedFallback
        = some true ∧
    (VersionFetcher.isCaretSemver
        (VersionFetcher.getLatestVersionWithFallback pkg now Option.none registry).version ∨
      (VersionFetcher.getLatestVersionWithFallback pkg now Option.none registry).version
        = "latest") ∧
    VersionFetcher.getLatestVersionWithFallback pkg now Option.none Option.none =
      VersionFetcher.latestFallback pkg ∧
    ∃ w, (VersionFetcher.latestFallback pkg).warning = some w ∧
      containsStr w "Could not fetch" := by
  have hcontain : ∃ w, (VersionFetcher.latestFallback pkg).warning = some w ∧
      containsStr w "Could not fetch" := by
    refine ⟨_, rfl, ?_⟩
    exact containsStr_appR _ _ _ (containsStr_appL _ _ _ (containsStr_self _))
  have hmain : ∀ (reg : Option VersionFetcher.RegistryData),
      (VersionFetcher.getStableFallbackVersion pkg now reg).usedFallback = some true ∧
      (VersionFetcher.isCaretSemver
          (VersionFetcher.getStableFallbackVersion pkg now reg).version ∨
        (VersionFetcher.getStableFallbackVersion pkg now reg).version = "latest") := by
    intro reg
    cases reg with
    | none => exact ⟨rfl, Or.inr rfl⟩
    | some rd =>
      cases hfind : (VersionFetcher.sortedStable rd).find?
          (fun v => decide (30 ≤ VersionFetcher.daysOld rd now v)) with
      | some v =>
        have hstrict := strict_of_mem_sortedStable rd v
          (List.mem_of_find?_eq_some hfind)
        constructor
        · simp [VersionFetcher.getStableFallbackVersion, hfind]
        · refine Or.inl ⟨v, hstrict, ?_⟩
          simp [VersionFetcher.getStableFallbackVersion, hfind]
      | none =>
        cases hsort : VersionFetcher.sortedStable rd with
        | nil =>
          rw [hsort] at hfind
          constructor
          · simp [VersionFetcher.getStableFallbackVersion, hsort, hfind,
              VersionFetcher.latestFallback]
          · refine Or.inr ?_
            simp [VersionFetcher.getStableFallbackVersion, hsort, hfind,
              VersionFetcher.latestFallback]
        | cons v t =>
          rw [hsort] at hfind
          have hstrict := strict_of_mem_sortedStable rd v (by rw [hsort]; simp)
          constructor
          · simp [VersionFetcher.getStableFallbackVersion, hsort, hfind]
          · refine Or.inl ⟨v, hstrict, ?_⟩
            simp [VersionFetcher.getStableFallbackVersion, hsort, hfind]
  exact ⟨(hmain registry).1, (hmain registry).2, rfl, hcontain⟩

theorem claim_C3_witness :
    VersionFetcher.getLatestVersionWithFallback "left-pad-9999-fake" 0
        Option.none Option.none =
      VersionFetcher.latestFallback "left-pad-9999-fake" :=
  (claim_C3_resolution_failure_paths "left-pad-9999-fake" 0 Option.none).2.2.1

/-- C4: the first fallback tier keeps exactly the strict, non-pre-release
versions, orders them descending by numeric (major, minor, patch)
comparison, and returns — caret-prefixed and flagged as fallback — the
first version at least 30 days old, or the single newest stable version
when none qualifies. -/
theorem claim_C4_stable_fallback_selection (pkg : String) (now : Int)
    (rd : VersionFetcher.RegistryData) :
    (∀ v, v ∈ VersionFetcher.sortedStable rd ↔
      (v ∈ rd.versions ∧ v.data.contains '-' = false ∧
        VersionFetcher.isStrictSemver v = true)) ∧
    (VersionFetcher.sortedStable rd).Perm (VersionFetcher.stableVersions rd) ∧
    (VersionFetcher.sortedStable rd).Pairwise
      (fun a b => VersionFetcher.tripleLe (VersionFetcher.semverTriple b)
        (VersionFetcher.semverTriple a)) ∧
    (VersionFetcher.getStableFallbackVersion pkg now (some rd)).usedFallback
        = some true ∧
    (VersionFetcher.getStableFallbackVersion pkg now (some rd)).version =
      (match (VersionFetcher.sortedStable rd).find?
          (fun v => decide (30 ≤ VersionFetcher.daysOld rd now v)) with
       | some v => "^" ++ v
       | Option.none =>
         match VersionFetcher.sortedStable rd with
         | [] => "latest"
         | v :: _ => "^" ++ v) := by
  have h : (VersionFetcher.getStableFallbackVersion pkg now (some rd)).usedFallback
        = some true ∧
      (VersionFetcher.getStableFallbackVersion pkg now (some rd)).version =
      (match (VersionFetcher.sortedStable rd).find?
          (fun v => decide (30 ≤ VersionFetcher.daysOld rd now v)) with
       | some v => "^" ++ v
       | Option.none =>
         match VersionFetcher.sortedStable rd with
         | [] => "latest"
         | v :: _ => "^" ++ v) := by
    cases hfind : (VersionFetcher.sortedStable rd).find?
        (fun v => decide (30 ≤ VersionFetcher.daysOld rd now v)) with
    | some v =>
      constructor
      · simp [VersionFetcher.getStableFallbackVersion, hfind]
      · simp [VersionFetcher.getStableFallbackVersion, hfind]
    | none =>
      cases hsort : VersionFetcher.sortedStable rd with
      | nil =>
        rw [hsort] at hfind
        constructor
        · simp [VersionFetcher.getStableFallbackVersion, hsort, hfind,
            VersionFetcher.latestFallback]
        · simp [VersionFetcher.getStableFallbackVersion, hsort, hfind,
            VersionFetcher.latestFallback]
      | cons v t =>
        rw [hsort] at hfind
        constructor
        · simp [VersionFetcher.getStableFallbackVersion, hsort, hfind]
        · simp [VersionFetcher.getStableFallbackVersion, hsort, hfind]
  exact ⟨fun v => (mem_sortedStable_iff rd v).trans (mem_stableVersions_iff rd v),
    sortedStable_perm rd, sortedStable_pairwise rd, h.1, h.2⟩

theorem claim_C4_witness :
    (VersionFetcher.getStableFallbackVersion "p" 0 (some sampleRegistry)).usedFallback
      = some true :=
  (claim_C4_stable_fallback_selection "p" 0 sampleRegistry).2.2.2.1

/-- C5: the success-path warning rule — minor component 0 and younger than
30 days yields the new-major warning containing a downgrade suggestion to
major minus one, minor component 1 and younger than 14 days yields the
early-minor warning, anything else yields no warning; version 2.0.1 at 5
days old warns with a downgrade to major 1 and version 2.1.0 at 100 days
old does not warn. -/
theorem claim_C5_warning_rule (pkg version : String) (d M m : Int)
    (_hd : 0 ≤ d)
    (hM : VersionFetcher.versionMajor version = some M)
    (hm : VersionFetcher.versionMinor version = some m) :
    ((m = 0 ∧ d < 30) → ∃ w, VersionFetcher.generateWarning pkg version d = some w ∧
      containsStr w ("npm install " ++ pkg ++ "@" ++ toString (M - 1))) ∧
    ((m = 1 ∧ d < 14) → ∃ w, VersionFetcher.generateWarning pkg version d = some w ∧
      containsStr w "Recently released") ∧
    (¬(m = 0 ∧ d < 30) → ¬(m = 1 ∧ d < 14) →
      VersionFetcher.generateWarning pkg version d = Option.none) ∧
    (∃ w, VersionFetcher.generateWarning "typescript" "2.0.1" 5 = some w ∧
      containsStr w "npm install typescript@1") ∧
    VersionFetcher.generateWarning "typescript" "2.1.0" 100 = Option.none := by
  refine ⟨?_, ?_, ?_, ?_, by decide⟩
  · rintro ⟨rfl, h30⟩
    have hw : VersionFetcher.generateWarning pkg version d =
        some ("⚠️  " ++ pkg ++ "@" ++ version ++ " (" ++
          (toString d ++ " day" ++ (if d = 1 then "" else "s")) ++ " old)\n" ++
          "   New major version - may contain breaking changes.\n" ++
          "   If issues occur, downgrade: " ++
          ("npm install " ++ pkg ++ "@" ++ toString (M - 1))) := by
      unfold VersionFetcher.generateWarning
      rw [hM, hm, if_pos ⟨rfl, h30⟩]
    exact ⟨_, hw, containsStr_appL _ _ _ (containsStr_self _)⟩
  · rintro ⟨rfl, h14⟩
    have hneg : ¬(VersionFetcher.versionMinor version = some 0 ∧ d < 30) := by
      rw [hm]
      rintro ⟨hsome, _⟩
      exact absurd (Option.some.inj hsome) (by decide)
    have hw : VersionFetcher.generateWarning pkg version d =
        some ("⚠️  " ++ pkg ++ "@" ++ version ++ " (" ++
          (toString d ++ " day" ++ (if d = 1 then "" else "s")) ++ " old)\n" ++
          "   " ++ "Recently released" ++ " - may have early bugs.") := by
      unfold VersionFetcher.generateWarning
      rw [if_neg hneg, hm, if_pos ⟨rfl, h14⟩]
    exact ⟨_, hw, containsStr_appR _ _ _ (containsStr_appL _ _ _ (containsStr_self _))⟩
  · intro h1 h2
    have hneg1 : ¬(VersionFetcher.versionMinor version = some 0 ∧ d < 30) := by
      rw [hm]
      rintro ⟨hsome, hlt⟩
      exact h1 ⟨Option.some.inj hsome, hlt⟩
    have hneg2 : ¬(VersionFetcher.versionMinor version = some 1 ∧ d < 14) := by
      rw [hm]
      rintro ⟨hsome, hlt⟩
      exact h2 ⟨Option.some.inj hsome, hlt⟩
    unfold VersionFetcher.generateWarning
    rw [if_neg hneg1, if_neg hneg2]
  · exact ⟨"⚠️  typescript@2.0.1 (5 days old)\n   New major version - may contain breaking changes.\n   If issues occur, downgrade: npm install typescript@1",
      by decide, by decide⟩

theorem claim_C5_witness :
    ∃ w, VersionFetcher.generateWarning "typescript" "2.0.1" 5 = some w ∧
      containsStr w "npm install typescript@1" :=
  (claim_C5_warning_rule "typescript" "2.0.1" 5 2 0 (by decide) (by decide)
    (by decide)).2.2.2.1

/-- C6: the LTS resolver keeps exactly the LTS-designated entries with a
positive parsed major not past its tabled end of life (absent majors stay
active), deduplicates and sorts them strictly descending, then returns the
top two as the CI matrix, the first as latestLTS, the second as minimum
when it exists, and the matching engines string; a failed fetch yields
exactly the static fallback configuration. -/
theorem claim_C6_node_lts (now : Nat) (versions : List NodeFetcher.NodeDistVersion) :
    (∀ m, m ∈ NodeFetcher.ltsMajors now versions ↔
      ∃ e, e ∈ versions ∧ e.lts.isSome = true ∧
        NodeFetcher.parseMajorTag e.version = m ∧ 0 < m ∧
        NodeFetcher.isPastEOL now m = false) ∧
    (NodeFetcher.ltsMajors now versions).Pairwise (fun a b => a > b) ∧
    (∀ m, NodeFetcher.EOL_DATES m = Option.none →
      NodeFetcher.isPastEOL now m = false) ∧
    (match NodeFetcher.ltsMajors now versions with
     | [] => NodeFetcher.getNodeLTSVersions now (some versions) =
         NodeFetcher.FALLBACK_NODE_CONFIG
     | latest :: rest =>
       NodeFetcher.getNodeLTSVersions now (some versions) =
         { minimum := match rest with | [] => latest | second :: _ => second
           engines := ">=" ++
             toString (match rest with | [] => latest | second :: _ => second) ++
             ".0.0"
           ciMatrix := (latest :: rest).take 2
           latestLTS := latest }) ∧
    NodeFetcher.getNodeLTSVersions now Option.none = NodeFetcher.FALLBACK_NODE_CONFIG ∧
    NodeFetcher.FALLBACK_NODE_CONFIG =
      { minimum := 20, engines := ">=20.0.0", ciMatrix := [20, 22], latestLTS := 22 } := by
  refine ⟨fun m => (mem_ltsMajors now versions m).trans
      (mem_keptMajors_iff now versions m),
    ltsMajors_pairwise now versions, ?_, ?_, rfl, rfl⟩
  · intro m hm
    unfold NodeFetcher.isPastEOL
    rw [hm]
  · cases hL : NodeFetcher.ltsMajors now versions with
    | nil => simp only [NodeFetcher.getNodeLTSVersions, hL]
    | cons latest rest =>
      cases rest with
      | nil => simp only [NodeFetcher.getNodeLTSVersions, hL]
      | cons second rest2 => simp only [NodeFetcher.getNodeLTSVersions, hL]

theorem claim_C6_witness : NodeFetcher.isPastEOL 20251012 99 = false :=
  (claim_C6_node_lts 20251012 []).2.2.1 99 (by decide)

/-- C9: the CI step list contains a coverage-upload step (a step opening
with the Codecov upload name line) exactly when a test runner is chosen and
`useCodecov` is set, and any such step carries both the latest-LTS matrix
gate and `continue-on-error: true`. -/
theorem claim_C9_codecov_step (c : ProjectConfig)
    (n : NodeFetcher.NodeVersionConfig)
    (av : List (String × Workflows.ActionVersionResult)) :
    ((∃ s, s ∈ Workflows.ciSteps c n av ∧ beginsWith s Workflows.codecovMarker) ↔
      (c.testRunner ≠ TestRunner.none ∧ c.useCodecov = true)) ∧
    (∀ s, s ∈ Workflows.ciSteps c n av → beginsWith s Workflows.codecovMarker →
      containsStr s (Workflows.codecovGate n.latestLTS) ∧
      containsStr s "continue-on-error: true") := by
  constructor
  · constructor
    · rintro ⟨s, hs, hmark⟩
      rw [mem_ciSteps_iff] at hs
      rcases hs with rfl | rfl | rfl | ⟨_, rfl⟩ | ⟨_, rfl⟩ | ⟨_, rfl⟩ | rfl | ⟨hcond, rfl⟩
      · exact absurd hmark (codecovMarker_not_checkout _)
      · exact absurd hmark (codecovMarker_not_setupNode _)
      · exact absurd hmark codecovMarker_not_install
      · exact absurd hmark codecovMarker_not_typecheck
      · exact absurd hmark codecovMarker_not_lint
      · exact absurd hmark (codecovMarker_not_test _)
      · exact absurd hmark codecovMarker_not_build
      · exact hcond
    · intro hcond
      refine ⟨Workflows.codecovStep
        (Workflows.getActionVersion av "codecov/codecov-action" "v4") n.latestLTS,
        ?_, codecov_marked _ _⟩
      rw [mem_ciSteps_iff]
      tauto
  · intro s hs hmark
    rw [mem_ciSteps_iff] at hs
    rcases hs with rfl | rfl | rfl | ⟨_, rfl⟩ | ⟨_, rfl⟩ | ⟨_, rfl⟩ | rfl | ⟨hcond, rfl⟩
    · exact absurd hmark (codecovMarker_not_checkout _)
    · exact absurd hmark (codecovMarker_not_setupNode _)
    · exact absurd hmark codecovMarker_not_install
    · exact absurd hmark codecovMarker_not_typecheck
    · exact absurd hmark codecovMarker_not_lint
    · exact absurd hmark (codecovMarker_not_test _)
    · exact absurd hmark codecovMarker_not_build
    · exact ⟨codecov_contains_gate _ _, codecov_contains_continue _ _⟩

theorem claim_C9_witness :
    ∃ s, s ∈ Workflows.ciSteps sampleConfigTsDual NodeFetcher.FALLBACK_NODE_CONFIG [] ∧
      beginsWith s Workflows.codecovMarker :=
  ((claim_C9_codecov_step sampleConfigTsDual NodeFetcher.FALLBACK_NODE_CONFIG []).1).mpr
    (by decide)

theorem claim_C1_witness :
    exportsShape (Generators.generateEntryPoints sampleConfigTsDual).exports =
      expectedExportsShape sampleConfigTsDual.language sampleConfigTsDual.moduleType :=
  claim_C1_exports_key_sets sampleConfigTsDual

theorem claim_C7_witness :
    List.lookup "lint" (PackageJsonGen.generateScripts sampleConfigTsDual) =
      (if sampleConfigTsDual.useLinting then some "eslint ." else Option.none) :=
  (claim_C7_flat_config_lint_scripts sampleConfigTsDual).1

theorem claim_C10_witness :
    containsStr (Workflows.generateCIWorkflow sampleConfigTsDual
      NodeFetcher.FALLBACK_NODE_CONFIG []) "run: npm run build" :=
  (claim_C10_build_step_vs_scripts sampleConfigTsDual
    NodeFetcher.FALLBACK_NODE_CONFIG []).1

end Forge
